import Mathlib

/-!
Verification of the behaviour of `readflag.c`, a minimal privileged helper
that opens the hard-coded path `/root/flag.txt`, copies its bytes to
standard output, and exits.

The C program is shallowly embedded as a pure function from the state of the
file at the fixed path (either unopenable, or a list of bytes) to a trace of
observable events: the `fopen` call, the `perror` call, each `printf("%c", ·)`,
the `fclose` call, and process exit.  Bytes are `Fin 256`.  The variable
`ch` in the C source is a plain `char`, which is signed on the gcc/x86-64
toolchain named in the build comments of the source file; `charOfByte`
models the implementation-defined conversion of the `int` returned by
`fgetc` into that signed `char`.
-/

/-- A file byte. -/
abbrev Byte := Fin 256

/-- The hard-coded path opened by the program (`char file_name[] = "/root/flag.txt"`). -/
def file_name : String := "/root/flag.txt"

/-- The string passed to `perror` at line 19 of `readflag.c`. -/
def perrorText : String := "Error while opening the file.\n"

/-- `EXIT_FAILURE` from `<stdlib.h>`. -/
def EXIT_FAILURE : Nat := 1

/-- The value of a byte after the `int` result of `fgetc` is stored into the
plain (signed, on the target toolchain) `char ch`, re-read as an `int` for
the comparison with `EOF`. -/
def charOfByte (b : Byte) : Int :=
  if b.val < 128 then (b.val : Int) else (b.val : Int) - 256

/-- `EOF` from `<stdio.h>`. -/
def EOF : Int := -1

/-- The bytes emitted by the loop
`while((ch = fgetc(fp)) != EOF) printf("%c", ch);`
given the remaining bytes of the open stream.  On an empty remainder `fgetc`
returns `EOF` and the loop stops; otherwise the next byte is stored into
`ch`, and the loop stops early when the stored value compares equal to
`EOF`, else prints the byte and continues. -/
def readLoop : List Byte → List Byte
  | [] => []
  | b :: rest => if charOfByte b = EOF then [] else b :: readLoop rest

/-- Observable events of one execution. -/
inductive Event where
  | fopenCall : String → Bool → Event
  | perrorCall : String → Event
  | putChar : Byte → Event
  | fcloseCall : Event
  | exitCall : Nat → Event
deriving DecidableEq, Repr

/-- The input surface of a process: command-line arguments, environment
variables, bytes available on standard input.  `main` in `readflag.c`
has signature `int main()` and reads none of these. -/
structure ProcInput where
  args : List String
  env : List (String × String)
  stdin : List Byte

/-- The trace of events of one run of `main`, as a function of the state of
the file at `file_name`: `none` when `fopen` fails (file absent or not
readable), `some bytes` when it succeeds with those contents.  Mirrors the
body of `main` line by line: open; on failure `perror` then
`exit(EXIT_FAILURE)`; on success the read loop, `fclose`, `return 0`. -/
def mainTrace (file : Option (List Byte)) : List Event :=
  match file with
  | none =>
      [.fopenCall file_name false, .perrorCall perrorText, .exitCall EXIT_FAILURE]
  | some bytes =>
      .fopenCall file_name true :: ((readLoop bytes).map .putChar ++ [.fcloseCall, .exitCall 0])

/-- A full run of the program.  `main()` takes no parameters and never
consults arguments, environment or standard input, so the trace ignores
`ProcInput`. -/
def run (file : Option (List Byte)) (_inp : ProcInput) : List Event :=
  mainTrace file

/-- The bytes a trace writes to standard output. -/
def stdoutOf : List Event → List Byte
  | [] => []
  | .putChar b :: rest => b :: stdoutOf rest
  | _ :: rest => stdoutOf rest

/-- The messages a trace writes to standard error.  `perror(s)` writes `s`,
then `": "`, then the system reason for the pending error, then a newline. -/
def stderrOf (sysReason : String) : List Event → List String
  | [] => []
  | .perrorCall s :: rest => (s ++ (": " ++ (sysReason ++ "\n"))) :: stderrOf sysReason rest
  | _ :: rest => stderrOf sysReason rest

/-- The exit status of a trace: the code of the first exit event. -/
def exitCodeOf : List Event → Option Nat
  | [] => none
  | .exitCall c :: _ => some c
  | _ :: rest => exitCodeOf rest

/-- The paths of all `fopen` attempts in a trace, in order. -/
def opensOf : List Event → List String
  | [] => []
  | .fopenCall p _ :: rest => p :: opensOf rest
  | _ :: rest => opensOf rest

/-- The number of successful `fopen` calls in a trace. -/
def acquiredCount : List Event → Nat
  | [] => 0
  | .fopenCall _ true :: rest => acquiredCount rest + 1
  | _ :: rest => acquiredCount rest

/-- Handle discipline along a trace, given whether a handle is currently
open: a successful open requires no handle open and opens one, a close
requires one open and closes it, process exit and the end of the trace
require the handle closed. -/
def handleDiscipline : List Event → Bool → Bool
  | [], opened => !opened
  | .fopenCall _ ok :: rest, opened => !opened && handleDiscipline rest ok
  | .fcloseCall :: rest, opened => opened && handleDiscipline rest false
  | .exitCall _ :: rest, opened => !opened && handleDiscipline rest opened
  | .perrorCall _ :: rest, opened => handleDiscipline rest opened
  | .putChar _ :: rest, opened => handleDiscipline rest opened

/-- Stated from the claim wording of C3: the longest prefix of the file
that contains no byte of value 0xFF. -/
def specLongestPrefixNo255 (bytes : List Byte) : List Byte :=
  bytes.takeWhile (fun b => decide (b ≠ (255 : Byte)))

/-- State of the read loop for the small-step termination argument:
the bytes not yet read and the bytes already printed. -/
inductive LoopState where
  | running : List Byte → List Byte → LoopState
  | finished : List Byte → LoopState
deriving DecidableEq, Repr

/-- One iteration of the read loop. -/
def loopStep : LoopState → LoopState
  | .running [] out => .finished out
  | .running (b :: rest) out =>
      if charOfByte b = EOF then .finished out else .running rest (out ++ [b])
  | .finished out => .finished out

/- ## Helper lemmas -/

set_option maxRecDepth 4096 in
theorem charOfByte_eq_EOF (b : Byte) : charOfByte b = EOF ↔ b = (255 : Byte) := by
  revert b; decide

theorem stdoutOf_map_putChar (l : List Byte) (rest : List Event) :
    stdoutOf (l.map .putChar ++ rest) = l ++ stdoutOf rest := by
  induction l with
  | nil => rfl
  | cons b t ih => simp [stdoutOf, ih]

theorem exitCodeOf_map_putChar (l : List Byte) (rest : List Event) :
    exitCodeOf (l.map .putChar ++ rest) = exitCodeOf rest := by
  induction l with
  | nil => rfl
  | cons b t ih => simpa [exitCodeOf] using ih

theorem stderrOf_map_putChar (r : String) (l : List Byte) (rest : List Event) :
    stderrOf r (l.map .putChar ++ rest) = stderrOf r rest := by
  induction l with
  | nil => rfl
  | cons b t ih => simpa [stderrOf] using ih

theorem opensOf_map_putChar (l : List Byte) (rest : List Event) :
    opensOf (l.map .putChar ++ rest) = opensOf rest := by
  induction l with
  | nil => rfl
  | cons b t ih => simpa [opensOf] using ih

theorem handleDiscipline_map_putChar (l : List Byte) (rest : List Event) (op : Bool) :
    handleDiscipline (l.map .putChar ++ rest) op = handleDiscipline rest op := by
  induction l with
  | nil => rfl
  | cons b t ih => simpa [handleDiscipline] using ih

theorem readLoop_of_not_mem {bytes : List Byte} (h : (255 : Byte) ∉ bytes) :
    readLoop bytes = bytes := by
  induction bytes with
  | nil => rfl
  | cons b t ih =>
      have hb : b ≠ (255 : Byte) := fun hb => h (hb ▸ List.mem_cons_self b t)
      have : ¬ charOfByte b = EOF := fun hc => hb ((charOfByte_eq_EOF b).mp hc)
      simp only [readLoop, if_neg this]
      rw [ih (fun hm => h (List.mem_cons_of_mem _ hm))]

theorem readLoop_eq_takeWhile (bytes : List Byte) :
    readLoop bytes = specLongestPrefixNo255 bytes := by
  induction bytes with
  | nil => rfl
  | cons b t ih =>
      simp only [readLoop, specLongestPrefixNo255] at ih ⊢
      by_cases hb : b = (255 : Byte)
      · have hc : charOfByte b = EOF := (charOfByte_eq_EOF b).mpr hb
        rw [if_pos hc, List.takeWhile_cons_of_neg]
        simp [hb]
      · have hc : ¬ charOfByte b = EOF := fun h => hb ((charOfByte_eq_EOF b).mp h)
        rw [if_neg hc, List.takeWhile_cons_of_pos (by simp [hb]), ih]

theorem readLoop_prefix (bytes : List Byte) : readLoop bytes <+: bytes := by
  induction bytes with
  | nil => exact List.nil_prefix
  | cons b t ih =>
      by_cases hc : charOfByte b = EOF
      · simp only [readLoop, if_pos hc]
        exact List.nil_prefix
      · simp only [readLoop, if_neg hc]
        exact (List.prefix_cons_inj b).mpr ih

theorem loopStep_finished (n : Nat) (out : List Byte) :
    loopStep^[n] (.finished out) = .finished out := by
  induction n with
  | zero => rfl
  | succ k ih => rw [Function.iterate_succ_apply, loopStep, ih]

theorem loopStep_run (bytes out : List Byte) :
    loopStep^[bytes.length + 1] (.running bytes out) = .finished (out ++ readLoop bytes) := by
  induction bytes generalizing out with
  | nil => simp [loopStep, readLoop]
  | cons b t ih =>
      rw [List.length_cons, Function.iterate_succ_apply]
      by_cases hc : charOfByte b = EOF
      · simp only [loopStep, if_pos hc, readLoop]
        rw [loopStep_finished]
        simp
      · simp only [loopStep, if_neg hc, readLoop]
        rw [ih (out ++ [b])]
        simp

/- ## The claims -/

/-- Claim C1 (counterexample): for the three-byte file 0x41 0xFF 0x42 the
program does not write the file's bytes to standard output (only the first
byte is written), so the claim as stated is false. -/
theorem C1_counterexample :
    ¬ (stdoutOf (run (some [65, 255, 66]) ⟨[], [], []⟩) = [65, 255, 66]) := by
  decide

/-- Claim C1 (amended): for every file at the fixed path that exists and is
readable and whose contents contain no byte of value 0xFF, running the
program writes exactly that file's bytes, unmodified and in order, to
standard output, and terminates with exit status 0. -/
theorem C1_output_exact (bytes : List Byte) (inp : ProcInput)
    (h : (255 : Byte) ∉ bytes) :
    stdoutOf (run (some bytes) inp) = bytes ∧
      exitCodeOf (run (some bytes) inp) = some 0 := by
  constructor
  · show stdoutOf (mainTrace (some bytes)) = bytes
    simp [mainTrace, stdoutOf, stdoutOf_map_putChar, readLoop_of_not_mem h]
  · show exitCodeOf (mainTrace (some bytes)) = some 0
    simp [mainTrace, exitCodeOf, exitCodeOf_map_putChar]

/-- Witness for C1: the amended statement at the concrete file "hi". -/
theorem C1_output_exact_witness :
    (255 : Byte) ∉ ([104, 105] : List Byte) ∧
      (stdoutOf (run (some [104, 105]) ⟨[], [], []⟩) = [104, 105] ∧
        exitCodeOf (run (some [104, 105]) ⟨[], [], []⟩) = some 0) :=
  ⟨by decide, C1_output_exact [104, 105] ⟨[], [], []⟩ (by decide)⟩

/-- Claim C2: when opening the fixed path fails the program writes an error
message to standard error, exits with a non-zero status, writes zero bytes
to standard output, and makes exactly one open attempt. -/
theorem C2_open_failure (inp : ProcInput) (reason : String) :
    stdoutOf (run none inp) = [] ∧
      stderrOf reason (run none inp) ≠ [] ∧
      (∃ c, exitCodeOf (run none inp) = some c ∧ c ≠ 0) ∧
      (opensOf (run none inp)).length = 1 := by
  refine ⟨rfl, ?_, ⟨1, rfl, one_ne_zero⟩, rfl⟩
  show (perrorText ++ (": " ++ (reason ++ "\n"))) :: stderrOf reason [.exitCall EXIT_FAILURE] ≠ []
  exact List.cons_ne_nil _ _

/-- Witness for C2 at a concrete process input and system reason. -/
theorem C2_open_failure_witness :
    stdoutOf (run none ⟨[], [], []⟩) = [] ∧
      stderrOf "No such file or directory" (run none ⟨[], [], []⟩) ≠ [] ∧
      (∃ c, exitCodeOf (run none ⟨[], [], []⟩) = some c ∧ c ≠ 0) ∧
      (opensOf (run none ⟨[], [], []⟩)).length = 1 :=
  C2_open_failure ⟨[], [], []⟩ "No such file or directory"

/-- Claim C3: the bytes written to standard output are a prefix of the
file's contents, equal to the longest prefix of the file containing no
byte of value 0xFF; reading stops at the first 0xFF byte. -/
theorem C3_signed_char_prefix (bytes : List Byte) (inp : ProcInput) :
    stdoutOf (run (some bytes) inp) = specLongestPrefixNo255 bytes ∧
      stdoutOf (run (some bytes) inp) <+: bytes := by
  have hst : stdoutOf (run (some bytes) inp) = readLoop bytes := by
    show stdoutOf (mainTrace (some bytes)) = readLoop bytes
    simp [mainTrace, stdoutOf, stdoutOf_map_putChar]
  rw [hst]
  exact ⟨readLoop_eq_takeWhile bytes, readLoop_prefix bytes⟩

/-- Claim C4: whenever opening the fixed path succeeds, the program exits
with status 0; nothing in the read loop is checked or changes the status. -/
theorem C4_success_exit_zero (bytes : List Byte) (inp : ProcInput) :
    exitCodeOf (run (some bytes) inp) = some 0 := by
  show exitCodeOf (mainTrace (some bytes)) = some 0
  simp [mainTrace, exitCodeOf, exitCodeOf_map_putChar]

/-- Claim C5: on an empty file the program writes zero bytes to standard
output and exits with status 0. -/
theorem C5_empty_file (inp : ProcInput) :
    stdoutOf (run (some []) inp) = [] ∧ exitCodeOf (run (some []) inp) = some 0 :=
  ⟨rfl, rfl⟩

/-- Claim C6: two invocations during which the file at the fixed path has
identical contents and identical openability produce identical
standard-output bytes and identical exit statuses, whatever their other
process inputs. -/
theorem C6_deterministic (file : Option (List Byte)) (inp₁ inp₂ : ProcInput) :
    stdoutOf (run file inp₁) = stdoutOf (run file inp₂) ∧
      exitCodeOf (run file inp₁) = exitCodeOf (run file inp₂) :=
  ⟨rfl, rfl⟩

/-- Claim C7: for every finite file the read loop terminates: iterating the
loop step from the initial state reaches the finished state (in at most
one more step than the file has bytes), with exactly the loop's output. -/
theorem C7_loop_terminates (bytes : List Byte) :
    loopStep^[bytes.length + 1] (LoopState.running bytes []) =
      LoopState.finished (readLoop bytes) := by
  simpa using loopStep_run bytes []

/-- Claim C8: every execution opens exactly one path, the hard-coded
"/root/flag.txt", and the whole trace is independent of command-line
arguments, environment variables and standard input. -/
theorem C8_single_fixed_open (file : Option (List Byte)) (inp₁ inp₂ : ProcInput) :
    opensOf (run file inp₁) = ["/root/flag.txt"] ∧ run file inp₁ = run file inp₂ := by
  refine ⟨?_, rfl⟩
  cases file with
  | none => rfl
  | some bytes =>
      show opensOf (mainTrace (some bytes)) = ["/root/flag.txt"]
      simp only [mainTrace, opensOf, opensOf_map_putChar]
      rfl

/-- Claim C9: every handle the program opens is closed before it exits (the
trace respects handle discipline); on the failure path no handle is
acquired, and on the success path the trace ends with `fclose` followed by
process exit, after only output events. -/
theorem C9_handle_released (file : Option (List Byte)) (bytes : List Byte) (inp : ProcInput) :
    handleDiscipline (run file inp) false = true ∧
      acquiredCount (run none inp) = 0 ∧
      (∃ mid : List Byte, run (some bytes) inp =
        .fopenCall file_name true :: (mid.map Event.putChar ++ [.fcloseCall, .exitCall 0])) := by
  refine ⟨?_, rfl, ⟨readLoop bytes, rfl⟩⟩
  cases file with
  | none => rfl
  | some b =>
      show handleDiscipline (mainTrace (some b)) false = true
      simp only [mainTrace, handleDiscipline, handleDiscipline_map_putChar]
      rfl

/-- Claim C10: on open failure the exit status is exactly `EXIT_FAILURE`,
the value 1, and the message written to standard error begins with the
fixed text "Error while opening the file." followed by the rest of the
`perror` output, which carries the system reason. -/
theorem C10_failure_message (inp : ProcInput) (reason : String) :
    exitCodeOf (run none inp) = some EXIT_FAILURE ∧ EXIT_FAILURE = 1 ∧
      stderrOf reason (run none inp) =
        ["Error while opening the file." ++ ("\n" ++ (": " ++ (reason ++ "\n")))] := by
  refine ⟨rfl, rfl, ?_⟩
  show [perrorText ++ (": " ++ (reason ++ "\n"))] = _
  have hsplit : perrorText = "Error while opening the file." ++ "\n" := by decide
  rw [hsplit, String.append_assoc]

/-- Witness for C10 at a concrete process input and system reason. -/
theorem C10_failure_message_witness :
    exitCodeOf (run none ⟨[], [], []⟩) = some EXIT_FAILURE ∧ EXIT_FAILURE = 1 ∧
      stderrOf "Permission denied" (run none ⟨[], [], []⟩) =
        ["Error while opening the file." ++ ("\n" ++ (": " ++ ("Permission denied" ++ "\n")))] :=
  C10_failure_message ⟨[], [], []⟩ "Permission denied"
